import Mathlib

/-!
Verification of the cocoonmail-go client library core: request builder
(`createCocoonmailRequest`, `GetRequest`, `GetRequestSubuser`), region router
(`SetDataResidency`, `extractEndpoint`), and the mail helpers
(`NewMailSendRequest`, `NewMailRecipient`, `ParseEmail`).

Go strings are modelled as Lean `String` (lengths counted in characters; the
Go code counts bytes, and the two agree on the ASCII inputs treated here).
Go `nil`-able slices and maps are modelled as `Option (List _)` so that a
`nil` container (`none`) is distinguished from an empty one (`some []`).
-/

namespace Cocoonmail

/-- A well-founded substring test on character lists: `listContainsAux n h`
is true iff `n` occurs as a contiguous run inside `h`. -/
def listContainsAux : List Char → List Char → Bool
  | needle, [] => needle.isEmpty
  | needle, c :: t => needle.isPrefixOf (c :: t) || listContainsAux needle t

/-- `strContains needle hay` is true iff `needle` occurs as a substring of `hay`. -/
def strContains (needle hay : String) : Bool :=
  listContainsAux needle.data hay.data

/-- Modelled from the spec: the `rest` package's request descriptor
{method, baseURL, headers, body} (the `rest` package is not part of the
reviewed sources; §3 of the spec gives its shape). Headers are an
association list from header names to values. -/
structure Request where
  Method : String
  BaseURL : String
  Headers : List (String × String)
  Body : List Nat
  deriving Repr, DecidableEq

/-- CocoonmailOptions for CreateRequest (src/cocoonmail.go). -/
structure CocoonmailOptions where
  Key : String
  Endpoint : String
  Host : String
  Subuser : String
  deriving Repr, DecidableEq

/-- Modelled from the spec: the `rest` package's internal `options` value
built positionally in `createCocoonmailRequest` — the full Authorization
header value, the endpoint, the host, and the subuser. -/
structure RestOptions where
  Auth : String
  Endpoint : String
  Host : String
  Subuser : String
  deriving Repr, DecidableEq

/-- Modelled from the spec: the `rest` package's `requestNew`. Per §4.2 the
descriptor's baseURL is the resolved host concatenated with the endpoint, the
Authorization header carries the supplied value, and an on-behalf-of header is
set exactly when the subuser is non-empty. -/
def requestNew (o : RestOptions) : Request :=
  { Method := ""
    BaseURL := o.Host ++ o.Endpoint
    Headers :=
      ("Authorization", o.Auth) ::
        (if o.Subuser = "" then [] else [("On-Behalf-Of", o.Subuser)])
    Body := [] }

/-- `createCocoonmailRequest` from src/cocoonmail.go: wraps the key in a
`Bearer` header value, defaults an empty host to the production host, and
funnels through `requestNew`. -/
def createCocoonmailRequest (sgOptions : CocoonmailOptions) : Request :=
  let o : RestOptions :=
    ⟨"Bearer " ++ sgOptions.Key, sgOptions.Endpoint, sgOptions.Host,
      sgOptions.Subuser⟩
  let o := if o.Host = "" then { o with Host := "https://webhook.cocoonmail.com" } else o
  requestNew o

/-- `GetRequest` from src/cocoonmail.go. -/
def GetRequest (key endpoint host : String) : Request :=
  createCocoonmailRequest ⟨key, endpoint, host, ""⟩

/-- `GetRequestSubuser` from src/cocoonmail.go. -/
def GetRequestSubuser (key endpoint host subuser : String) : Request :=
  createCocoonmailRequest ⟨key, endpoint, host, subuser⟩

/-- The region → host map `allowedRegionsHostMap` from src/cocoonmail.go,
as a lookup function. -/
def allowedRegionsHostMap : String → Option String := fun region =>
  if region = "eu" then some "https://api.eu.cocoonmail.com"
  else if region = "global" then some "https://webhook.cocoonmail.com"
  else none

/-- Scans a character list for the first occurrence of the scheme separator
`://` and returns what follows it, or `none` when there is none. Part of the
model of URL parsing used by `extractEndpoint`. -/
def afterSchemeSep : List Char → Option (List Char)
  | ':' :: '/' :: '/' :: rest => some rest
  | _ :: rest => afterSchemeSep rest
  | [] => none

/-- Modelled from the spec: the path component of a parsed URL (§4.3 — parse
the baseURL as a URL and take its path component only, discarding scheme,
host, query and fragment; a string with no `scheme://` part is not parseable
as such a URL). The Go code delegates this to `net/url.Parse`, which is not
part of the reviewed sources. -/
def extractURLPathCore (l : List Char) : Option (List Char) :=
  (afterSchemeSep l).map fun rest =>
    (rest.dropWhile (· ≠ '/')).takeWhile fun c => c ≠ '?' && c ≠ '#' 

/-- `extractEndpoint` from src/cocoonmail.go: URL-parse the link and return
its path, or fail when the link does not parse. -/
def extractEndpoint (link : String) : Option String :=
  (extractURLPathCore link.data).map String.mk

/-- The constant error message built by `SetDataResidency` for an
unrecognized region. -/
def regionErrorMsg : String := "error: region can only be \"eu\" or \"global\""

/-- The error message standing for a `url.Parse` failure inside
`SetDataResidency` (the Go code forwards the parser's own error value). -/
def urlParseErrorMsg : String := "url parse error"

/-- `SetDataResidency` from src/cocoonmail.go: look the region up in
`allowedRegionsHostMap`; on a miss return the request unchanged with the
constant region error; otherwise extract the endpoint from the current
baseURL (returning the request unchanged on a parse failure) and rewrite the
baseURL to the regional host followed by that endpoint. The `Option String`
component is the returned Go error (`none` = nil). -/
def SetDataResidency (request : Request) (region : String) :
    Request × Option String :=
  match allowedRegionsHostMap region with
  | none => (request, some regionErrorMsg)
  | some regionalHost =>
    match extractEndpoint request.BaseURL with
    | none => (request, some urlParseErrorMsg)
    | some endpoint => ({ request with BaseURL := regionalHost ++ endpoint }, none)

/-- A Go `interface{}` value as it can appear in the helper maps
(`Attributes`, `CustomParameter`); only strings, integers and booleans are
ever stored by the library's callers, and no claim inspects the values. -/
inductive GoValue where
  | str : String → GoValue
  | int : Int → GoValue
  | bool : Bool → GoValue
  deriving Repr, DecidableEq

/-- `MailRecipient` from src/helpers/mail/main.go. Go `nil`-able slices and
maps become `Option (List _)` (`none` = nil). -/
structure MailRecipient where
  Email : String
  Name : String
  FirstName : String
  MiddleName : String
  LastName : String
  Attributes : Option (List (String × GoValue))
  Lists : Option (List String)
  Tags : Option (List String)
  Gender : String
  Age : Int
  Address1 : String
  Address2 : String
  City : String
  State : String
  Country : String
  PostalCode : String
  Designation : String
  Company : String
  Industry : String
  Description : String
  AnniversaryDate : String
  deriving Repr, DecidableEq

/-- `MailAttachment` from src/helpers/mail/main.go. -/
structure MailAttachment where
  Filename : String
  ContentType : String
  Data : String
  deriving Repr, DecidableEq

/-- `MailAttachmentRemote` from src/helpers/mail/main.go. -/
structure MailAttachmentRemote where
  RemoteLink : String
  deriving Repr, DecidableEq

/-- `MailSendRequest` from src/helpers/mail/main.go. -/
structure MailSendRequest where
  TransactionalID : String
  To : Option (List MailRecipient)
  ReplyTo : String
  CustomParameter : Option (List (String × GoValue))
  Attachments : Option (List MailAttachment)
  AttachmentsRemote : Option (List MailAttachmentRemote)
  AddEmailAddressToContact : Bool
  ScheduledAt : String
  AllowClickTracking : Bool
  AllowOpenTracking : Bool
  BypassBounceControl : Bool
  BypassUnsubscribeList : Bool
  EnableViewInBrowser : Bool
  deriving Repr, DecidableEq

/-- `NewMailSendRequest` from src/helpers/mail/main.go: the four container
fields are made (empty, non-nil); every other field keeps its Go zero value. -/
def NewMailSendRequest : MailSendRequest :=
  { TransactionalID := ""
    To := some []
    ReplyTo := ""
    CustomParameter := some []
    Attachments := some []
    AttachmentsRemote := some []
    AddEmailAddressToContact := false
    ScheduledAt := ""
    AllowClickTracking := false
    AllowOpenTracking := false
    BypassBounceControl := false
    BypassUnsubscribeList := false
    EnableViewInBrowser := false }

/-- `NewMailRecipient` from src/helpers/mail/main.go: sets the name and email
and makes the three container fields (empty, non-nil); every other field
keeps its Go zero value. -/
def NewMailRecipient (name email : String) : MailRecipient :=
  { Email := email
    Name := name
    FirstName := ""
    MiddleName := ""
    LastName := ""
    Attributes := some []
    Lists := some []
    Tags := some []
    Gender := ""
    Age := 0
    Address1 := ""
    Address2 := ""
    City := ""
    State := ""
    Country := ""
    PostalCode := ""
    Designation := ""
    Company := ""
    Industry := ""
    Description := ""
    AnniversaryDate := "" }

/-- The domain part must not exceed 255 characters (RFC 3696). -/
def maxEmailDomainLength : Nat := 255

/-- The local part must not exceed 64 characters (RFC 3696). -/
def maxEmailLocalLength : Nat := 64

/-- Max email length must not exceed 320 characters. -/
def maxEmailLength : Nat := maxEmailDomainLength + maxEmailLocalLength + 1

/-- The error message of the total-length check in `ParseEmail`. -/
def totalLengthErrorMsg : String :=
  s!"Invalid email length. Total length should not exceed {maxEmailLength} characters."

/-- The error message of the domain-length check in `ParseEmail`. -/
def domainLengthErrorMsg : String :=
  s!"Invalid email length. Domain length should not exceed {maxEmailDomainLength} characters."

/-- The error message of the local-length check in `ParseEmail`. -/
def localLengthErrorMsg : String :=
  s!"Invalid email length. Local part length should not exceed {maxEmailLocalLength} characters."

/-- Go's `strings.Split` specialized to a one-character separator: splits the
character list at every occurrence of `sep`. Always returns at least one
piece, and `n` separators yield `n + 1` pieces. -/
def splitOnChar (sep : Char) : List Char → List (List Char)
  | [] => [[]]
  | c :: rest =>
    if c = sep then [] :: splitOnChar sep rest
    else
      match splitOnChar sep rest with
      | [] => [[c]]
      | p :: ps => (c :: p) :: ps

/-- `ParseEmail` from src/helpers/mail/main.go, after `mail.ParseAddress` has
succeeded: `name` and `address` are the display name and normalized address
the parser returned (the parser itself, from Go's `net/mail`, is outside the
reviewed sources and is abstracted as these two inputs; it guarantees the
address contains an `@`, which the Go indexing `parts[1]` relies on — on an
`@`-free address the Go code would panic, while this model reads an empty
domain). The body checks total length, splits on `@` taking pieces 0 and 1,
checks domain then local length, and builds the recipient. -/
def ParseEmailChecked (name address : String) : Except String MailRecipient :=
  if address.length > maxEmailLength then .error totalLengthErrorMsg
  else
    let parts := splitOnChar '@' address.data
    let localPart := parts.getD 0 []
    let domainPart := parts.getD 1 []
    if domainPart.length > maxEmailDomainLength then .error domainLengthErrorMsg
    else if localPart.length > maxEmailLocalLength then .error localLengthErrorMsg
    else .ok (NewMailRecipient name address)

/-- The split the spec prescribes: local part = substring before the last
`@`, domain part = substring after the last `@` (stated for comparison with
the split the code performs). -/
def lastAtSplit (l : List Char) : List Char × List Char :=
  (((l.reverse.dropWhile (· ≠ '@')).drop 1).reverse,
    (l.reverse.takeWhile (· ≠ '@')).reverse)

/-- The (local, domain) pair the code's split actually produces. -/
def codeAtSplit (l : List Char) : List Char × List Char :=
  let parts := splitOnChar '@' l
  (parts.getD 0 [], parts.getD 1 [])

/-- A concrete descriptor as `NewSendClient` would build it, used to
instantiate the universally quantified theorems. -/
def sampleRequest : Request :=
  { Method := "POST"
    BaseURL := "https://webhook.cocoonmail.com/webhook/mail/send"
    Headers := [("Authorization", "Bearer abc123")]
    Body := [] }

theorem dropWhile_append_all {α : Type} (q : α → Bool) (l₁ l₂ : List α)
    (h : ∀ x ∈ l₁, q x = true) :
    (l₁ ++ l₂).dropWhile q = l₂.dropWhile q := by
  induction l₁ with
  | nil => rfl
  | cons c t ih =>
      simp only [List.cons_append, List.dropWhile_cons]
      rw [h c (List.mem_cons_self c t)]
      simp only [ite_true]
      exact ih fun x hx => h x (List.mem_cons_of_mem c hx)

theorem takeWhile_eq_self_of_all {α : Type} (q : α → Bool) (l : List α)
    (h : ∀ x ∈ l, q x = true) : l.takeWhile q = l := by
  induction l with
  | nil => rfl
  | cons c t ih =>
      simp only [List.takeWhile_cons]
      rw [h c (List.mem_cons_self c t)]
      simp only [ite_true, List.cons.injEq, true_and]
      exact ih fun x hx => h x (List.mem_cons_of_mem c hx)

theorem dropWhile_shape {α : Type} (q : α → Bool) (l : List α) :
    l.dropWhile q = [] ∨ ∃ c t, l.dropWhile q = c :: t ∧ q c = false := by
  induction l with
  | nil => exact Or.inl rfl
  | cons c t ih =>
      by_cases hc : q c = true
      · simpa [List.dropWhile_cons, hc] using ih
      · exact Or.inr ⟨c, t, by simp [List.dropWhile_cons, hc], by simpa using hc⟩

/-- `splitOnChar` on a separator-free list yields that single piece. -/
theorem splitOnChar_of_not_mem (sep : Char) (l : List Char) (h : sep ∉ l) :
    splitOnChar sep l = [l] := by
  induction l with
  | nil => rfl
  | cons c t ih =>
      have hc : ¬c = sep := fun hcs => h (hcs ▸ List.mem_cons_self c t)
      have ht := ih fun hm => h (List.mem_cons_of_mem c hm)
      simp [splitOnChar, hc, ht]

/-- `splitOnChar` peels off the piece before the first separator. -/
theorem splitOnChar_append_sep (sep : Char) (l₁ l₂ : List Char) (h : sep ∉ l₁) :
    splitOnChar sep (l₁ ++ sep :: l₂) = l₁ :: splitOnChar sep l₂ := by
  induction l₁ with
  | nil => simp [splitOnChar]
  | cons c t ih =>
      have hc : ¬c = sep := fun hcs => h (hcs ▸ List.mem_cons_self c t)
      have ht := ih fun hm => h (List.mem_cons_of_mem c hm)
      simp only [List.cons_append, splitOnChar, hc, ite_false, List.append_eq, ht]

/-- `splitOnChar` always returns at least one piece, as `strings.Split` does. -/
theorem splitOnChar_ne_nil (sep : Char) (l : List Char) :
    splitOnChar sep l ≠ [] := by
  cases l with
  | nil => simp [splitOnChar]
  | cons c t =>
      simp only [splitOnChar]
      split_ifs
      · simp
      · cases h : splitOnChar sep t with
        | nil => simp
        | cons q qs => simp

/-- Every piece produced by `splitOnChar` is at most as long as the input. -/
theorem splitOnChar_piece_length (sep : Char) (l : List Char) :
    ∀ p ∈ splitOnChar sep l, p.length ≤ l.length := by
  induction l with
  | nil =>
      intro p hp
      simp only [splitOnChar, List.mem_singleton] at hp
      simp [hp]
  | cons c t ih =>
      intro p hp
      by_cases hc : c = sep
      · rw [splitOnChar, if_pos hc] at hp
        rcases List.mem_cons.mp hp with he | hm
        · simp [he]
        · exact le_trans (ih p hm) (Nat.le_succ _)
      · rw [splitOnChar, if_neg hc] at hp
        cases h : splitOnChar sep t with
        | nil => exact absurd h (splitOnChar_ne_nil sep t)
        | cons q qs =>
            rw [h] at hp
            rcases List.mem_cons.mp hp with he | hm
            · have hq : q.length ≤ t.length := by
                refine ih q ?_
                rw [h]
                exact List.mem_cons_self q qs
              simp only [he, List.length_cons]
              exact Nat.succ_le_succ hq
            · have hm' : p ∈ splitOnChar sep t := by
                rw [h]
                exact List.mem_cons_of_mem q hm
              exact le_trans (ih p hm') (Nat.le_succ _)

/-- `strings.Split` concatenation: a separator at the junction splits the two
sides independently. -/
theorem splitOnChar_append (sep : Char) (l₁ l₂ : List Char) :
    splitOnChar sep (l₁ ++ sep :: l₂) =
      splitOnChar sep l₁ ++ splitOnChar sep l₂ := by
  induction l₁ with
  | nil => simp [splitOnChar]
  | cons c t ih =>
      by_cases hc : c = sep
      · simp only [List.cons_append, splitOnChar, if_pos hc, List.append_eq, ih]
      · cases h : splitOnChar sep t with
        | nil => exact absurd h (splitOnChar_ne_nil sep t)
        | cons q qs =>
            simp only [List.cons_append, splitOnChar, if_neg hc, List.append_eq, ih, h,
              List.cons_append]

/-- The pieces `ParseEmail` reads when the address is `local ++ "@" ++ domain`
with `@`-free halves: exactly the two halves. -/
theorem splitOnChar_two_pieces (localPart domainPart : List Char)
    (hl : '@' ∉ localPart) (hd : '@' ∉ domainPart) :
    splitOnChar '@' (localPart ++ '@' :: domainPart) = [localPart, domainPart] := by
  rw [splitOnChar_append_sep '@' localPart domainPart hl,
    splitOnChar_of_not_mem '@' domainPart hd]

theorem pred_of_mem_takeWhile {α : Type} (q : α → Bool) (l : List α) {x : α}
    (h : x ∈ l.takeWhile q) : q x = true := by
  induction l with
  | nil => exact absurd h (List.not_mem_nil x)
  | cons c t ih =>
      rw [List.takeWhile_cons] at h
      by_cases hc : q c = true
      · rw [if_pos hc] at h
        rcases List.mem_cons.mp h with he | hm
        · rw [he]; exact hc
        · exact ih hm
      · rw [if_neg hc] at h
        exact absurd h (List.not_mem_nil x)

/-- A successfully extracted path has no query/fragment characters and is
either empty or starts with a slash. -/
theorem extract_path_props (l p : List Char) (h : extractURLPathCore l = some p) :
    (∀ x ∈ p, (x ≠ '?' && x ≠ '#' : Bool) = true) ∧ (p = [] ∨ ∃ t, p = '/' :: t) := by
  unfold extractURLPathCore at h
  cases hsep : afterSchemeSep l with
  | none => rw [hsep] at h; exact absurd h (by simp)
  | some rest =>
      rw [hsep, Option.map_some', Option.some.injEq] at h
      subst h
      refine ⟨fun x hx => pred_of_mem_takeWhile (fun c => c ≠ '?' && c ≠ '#') _ hx, ?_⟩
      rcases dropWhile_shape (fun c => c ≠ '/') rest with hsh | ⟨c, t, hct, hcf⟩
      · left; rw [hsh]; rfl
      · have hc : c = '/' := by simpa using hcf
        subst hc
        rw [hct]
        right
        exact ⟨t.takeWhile _, by rw [List.takeWhile_cons, if_pos (by decide)]⟩

/-- Re-extracting behind a slash-free host tail returns the path unchanged. -/
theorem extract_tail_roundtrip (hostTail p : List Char)
    (hsl : ∀ x ∈ hostTail, (x ≠ '/' : Bool) = true)
    (hall : ∀ x ∈ p, (x ≠ '?' && x ≠ '#' : Bool) = true)
    (hshape : p = [] ∨ ∃ t, p = '/' :: t) :
    ((hostTail ++ p).dropWhile (· ≠ '/')).takeWhile (fun c => c ≠ '?' && c ≠ '#') = p := by
  rw [dropWhile_append_all _ _ _ hsl]
  rcases hshape with h0 | ⟨t, ht⟩
  · subst h0; rfl
  · subst ht
    rw [List.dropWhile_cons, if_neg (by decide)]
    exact takeWhile_eq_self_of_all _ _ hall

/-- The scheme separator of the EU host is found inside the host constant. -/
theorem afterSchemeSep_eu (l : List Char) :
    afterSchemeSep ("https://api.eu.cocoonmail.com".data ++ l) =
      some ("api.eu.cocoonmail.com".data ++ l) := rfl

/-- The scheme separator of the global host is found inside the host constant. -/
theorem afterSchemeSep_global (l : List Char) :
    afterSchemeSep ("https://webhook.cocoonmail.com".data ++ l) =
      some ("webhook.cocoonmail.com".data ++ l) := rfl

/-- Extracting the endpoint from a regional host followed by a previously
extracted path gives back exactly that path. -/
theorem extractEndpoint_roundtrip (H link p : String)
    (hH : H = "https://api.eu.cocoonmail.com" ∨ H = "https://webhook.cocoonmail.com")
    (h : extractEndpoint link = some p) :
    extractEndpoint (H ++ p) = some p := by
  unfold extractEndpoint at h ⊢
  cases hcore : extractURLPathCore link.data with
  | none => rw [hcore] at h; exact absurd h (by simp)
  | some pd =>
      rw [hcore] at h
      simp only [Option.map_some', Option.some.injEq] at h
      have hpd : p.data = pd := by rw [← h]
      obtain ⟨hall, hshape⟩ := extract_path_props link.data pd hcore
      have hdata : (H ++ p).data = H.data ++ p.data := String.data_append H p
      rcases hH with hH | hH <;> subst hH
      · rw [hdata, hpd]
        unfold extractURLPathCore
        rw [afterSchemeSep_eu pd, Option.map_some',
          extract_tail_roundtrip "api.eu.cocoonmail.com".data pd (by decide) hall hshape,
          Option.map_some', h]
      · rw [hdata, hpd]
        unfold extractURLPathCore
        rw [afterSchemeSep_global pd, Option.map_some',
          extract_tail_roundtrip "webhook.cocoonmail.com".data pd (by decide) hall hshape,
          Option.map_some', h]

/-- C1 (corrected): for every Build Options value the request produced by
`createCocoonmailRequest` (reached via `GetRequest` and `GetRequestSubuser`)
carries an Authorization header exactly equal to `"Bearer " ++ key`; this
holds for the empty key as well, in which case the builder still produces a
request (with header value `"Bearer "`) — it has no failure path at all. -/
theorem authorization_header_always_bearer_key (opts : CocoonmailOptions) :
    (createCocoonmailRequest opts).Headers.lookup "Authorization" =
      some ("Bearer " ++ opts.Key) ∧
    (GetRequest opts.Key opts.Endpoint opts.Host).Headers.lookup "Authorization" =
      some ("Bearer " ++ opts.Key) ∧
    (GetRequestSubuser opts.Key opts.Endpoint opts.Host opts.Subuser).Headers.lookup
        "Authorization" = some ("Bearer " ++ opts.Key) := by
  obtain ⟨k, e, h, su⟩ := opts
  refine ⟨?_, ?_, ?_⟩ <;>
    · simp only [createCocoonmailRequest, requestNew, GetRequest, GetRequestSubuser]
      split <;> simp [List.lookup]

/-- C1 counterexample: with an empty key the builder does not fail — it
produces a request whose Authorization header is the bare `"Bearer "` and
whose baseURL is fully formed. -/
theorem empty_key_still_builds_request :
    (GetRequest "" "/webhook/mail/send" "").Headers.lookup "Authorization" =
      some "Bearer " ∧
    (GetRequest "" "/webhook/mail/send" "").BaseURL =
      "https://webhook.cocoonmail.com/webhook/mail/send" :=
  ⟨rfl, rfl⟩

/-- C2 (corrected): for every descriptor and every region outside the
recognized set, `SetDataResidency` returns the descriptor unmodified together
with the fixed error message, which names the allowed identifiers `"eu"` and
`"global"` (but not the requested identifier). -/
theorem unrecognized_region_fixed_error (req : Request) (region : String)
    (h1 : region ≠ "eu") (h2 : region ≠ "global") :
    SetDataResidency req region = (req, some regionErrorMsg) ∧
    strContains "\"eu\"" regionErrorMsg = true ∧
    strContains "\"global\"" regionErrorMsg = true := by
  refine ⟨?_, by decide, by decide⟩
  unfold SetDataResidency allowedRegionsHostMap
  rw [if_neg h1, if_neg h2]

/-- C2 witness: the unrecognized region `"us"` on a concrete descriptor. -/
theorem unrecognized_region_fixed_error_witness :
    SetDataResidency sampleRequest "us" = (sampleRequest, some regionErrorMsg) :=
  (unrecognized_region_fixed_error sampleRequest "us" (by decide) (by decide)).1

/-- C2 counterexample: for region `"us"` the error returned is the fixed
message, and that message does not name the requested identifier `"us"`
anywhere — only the allowed set. -/
theorem region_error_omits_requested_identifier :
    SetDataResidency sampleRequest "us" = (sampleRequest, some regionErrorMsg) ∧
    strContains "us" regionErrorMsg = false :=
  ⟨rfl, by decide⟩

/-- C3 (code bug): on the normalized address `a@b@example.com` (the parse of
the syntactically valid `"a@b"@example.com`, whose quoted local part contains
an `@`), the pieces `ParseEmail` reads — `parts[0]` and `parts[1]` of the
full split on `@` — are `("a", "b")`, not the split at the last `@`
`("a@b", "example.com")` the spec prescribes. -/
theorem parse_email_splits_on_first_at :
    codeAtSplit "a@b@example.com".data = ("a".data, "b".data) ∧
    lastAtSplit "a@b@example.com".data = ("a@b".data, "example.com".data) ∧
    codeAtSplit "a@b@example.com".data ≠ lastAtSplit "a@b@example.com".data :=
  ⟨by decide, by decide, by decide⟩

/-- C4 counterexample: the syntactically valid address whose quoted local
part holds `a@` followed by 63 `a`s (true local part 65 characters, over the
64 limit) and domain `b.co` normalizes to `a@aa…a@b.co`; `ParseEmail` splits
it at the first `@`, measures pieces of length 1 and 63, and returns success
instead of the local-length error the claim demands. -/
theorem parse_email_length_order_counterexample :
    (lastAtSplit ("a@" ++ String.mk (List.replicate 63 'a') ++ "@b.co").data).1.length >
      maxEmailLocalLength ∧
    ParseEmailChecked "" ("a@" ++ String.mk (List.replicate 63 'a') ++ "@b.co") =
      .ok (NewMailRecipient "" ("a@" ++ String.mk (List.replicate 63 'a') ++ "@b.co")) :=
  ⟨by decide, by rfl⟩

/-- C4 (corrected): on an address whose local part is `@`-free and which
violates at least one length limit, `ParseEmail` reports the first violated
limit in the fixed order total, then domain, then local, and each message
carries its limit's value. (For a valid address whose quoted local part
contains `@` the checks measure the first-`@` split pieces instead and can
succeed despite an over-long local part.) -/
theorem parse_email_length_check_order (name localPart domainPart : String)
    (hl : '@' ∉ localPart.data) (hd : '@' ∉ domainPart.data)
    (hviol : (localPart ++ "@" ++ domainPart).length > maxEmailLength ∨
      domainPart.length > maxEmailDomainLength ∨
      localPart.length > maxEmailLocalLength) :
    ParseEmailChecked name (localPart ++ "@" ++ domainPart) =
      .error
        (if (localPart ++ "@" ++ domainPart).length > maxEmailLength then
          totalLengthErrorMsg
        else if domainPart.length > maxEmailDomainLength then domainLengthErrorMsg
        else localLengthErrorMsg) ∧
    strContains "320" totalLengthErrorMsg = true ∧
    strContains "255" domainLengthErrorMsg = true ∧
    strContains "64" localLengthErrorMsg = true := by
  refine ⟨?_, by decide, by decide, by decide⟩
  have haddr : (localPart ++ "@" ++ domainPart).data =
      localPart.data ++ '@' :: domainPart.data := by
    rw [String.data_append, String.data_append, List.append_assoc]
    rfl
  have hparts : splitOnChar '@' (localPart ++ "@" ++ domainPart).data =
      [localPart.data, domainPart.data] := by
    rw [haddr]
    exact splitOnChar_two_pieces _ _ hl hd
  have hdl : domainPart.length = domainPart.data.length := rfl
  have hll : localPart.length = localPart.data.length := rfl
  simp only [ParseEmailChecked, hparts, List.getD, List.get?_cons_zero,
    List.get?_cons_succ, Option.getD_some]
  rw [← hdl, ← hll]
  split_ifs with h1 h2 h3
  · rfl
  · rfl
  · rfl
  · rcases hviol with hv | hv | hv <;> contradiction

/-- C4 witness: a local part of exactly 65 characters with a short domain
fails with the local-length error, not the total-length error. -/
theorem parse_email_length_check_order_witness :
    ParseEmailChecked "" (String.mk (List.replicate 65 'a') ++ "@" ++ "b.co") =
      .error localLengthErrorMsg := by
  have h := (parse_email_length_check_order "" (String.mk (List.replicate 65 'a'))
    "b.co" (by decide) (by decide) (Or.inr (Or.inr (by decide)))).1
  rw [if_neg (by decide), if_neg (by decide)] at h
  exact h

/-- C5 (confirmed): for every syntactically valid address — the local part
may contain `@`, as a quoted local part can; the domain part, lying after
the last `@`, cannot — within all three length limits (total ≤ 320, domain
≤ 255, local ≤ 64), `ParseEmail` succeeds and the recipient carries the
parsed display name and the normalized address. -/
theorem parse_email_accepts_valid (name localPart domainPart : String)
    (hd : '@' ∉ domainPart.data)
    (htot : (localPart ++ "@" ++ domainPart).length ≤ maxEmailLength)
    (hdom : domainPart.length ≤ maxEmailDomainLength)
    (hloc : localPart.length ≤ maxEmailLocalLength) :
    ParseEmailChecked name (localPart ++ "@" ++ domainPart) =
      .ok (NewMailRecipient name (localPart ++ "@" ++ domainPart)) ∧
    (NewMailRecipient name (localPart ++ "@" ++ domainPart)).Name = name ∧
    (NewMailRecipient name (localPart ++ "@" ++ domainPart)).Email =
      localPart ++ "@" ++ domainPart := by
  refine ⟨?_, rfl, rfl⟩
  have haddr : (localPart ++ "@" ++ domainPart).data =
      localPart.data ++ '@' :: domainPart.data := by
    rw [String.data_append, String.data_append, List.append_assoc]
    rfl
  have hparts : splitOnChar '@' (localPart ++ "@" ++ domainPart).data =
      splitOnChar '@' localPart.data ++ [domainPart.data] := by
    rw [haddr, splitOnChar_append, splitOnChar_of_not_mem '@' domainPart.data hd]
  obtain ⟨p0, tl, hsl⟩ : ∃ p0 tl, splitOnChar '@' localPart.data = p0 :: tl := by
    cases h : splitOnChar '@' localPart.data with
    | nil => exact absurd h (splitOnChar_ne_nil '@' localPart.data)
    | cons q qs => exact ⟨q, qs, rfl⟩
  have hp0 : p0.length ≤ localPart.data.length := by
    refine splitOnChar_piece_length '@' localPart.data p0 ?_
    rw [hsl]
    exact List.mem_cons_self p0 tl
  have hloc' : localPart.data.length ≤ maxEmailLocalLength := hloc
  have hdom' : domainPart.data.length ≤ maxEmailDomainLength := hdom
  have hlim : maxEmailLocalLength ≤ maxEmailDomainLength := by decide
  rw [hsl] at hparts
  cases tl with
  | nil =>
      simp only [ParseEmailChecked, hparts, List.cons_append, List.nil_append,
        List.getD, List.get?_cons_zero, List.get?_cons_succ, Option.getD_some]
      rw [if_neg (by omega), if_neg (by omega), if_neg (by omega)]
  | cons p1 tl' =>
      have hp1 : p1.length ≤ localPart.data.length := by
        refine splitOnChar_piece_length '@' localPart.data p1 ?_
        rw [hsl]
        exact List.mem_cons_of_mem p0 (List.mem_cons_self p1 tl')
      simp only [ParseEmailChecked, hparts, List.cons_append,
        List.getD, List.get?_cons_zero, List.get?_cons_succ, Option.getD_some]
      rw [if_neg (by omega), if_neg (by omega), if_neg (by omega)]

/-- C5 witness: a concrete in-limits address with a display name. -/
theorem parse_email_accepts_valid_witness :
    ParseEmailChecked "Alice" ("alice" ++ "@" ++ "example.com") =
      .ok (NewMailRecipient "Alice" ("alice" ++ "@" ++ "example.com")) :=
  (parse_email_accepts_valid "Alice" "alice" "example.com" (by decide)
    (by decide) (by decide) (by decide)).1

/-- C6 (confirmed): building with key `abc123`, endpoint
`/webhook/mail/send` and an empty host yields Authorization
`Bearer abc123` and baseURL `https://webhook.cocoonmail.com/webhook/mail/send`;
in general an empty host resolves to the fixed production host, any other
host is used verbatim, and baseURL is the resolved host ++ endpoint. -/
theorem build_request_host_resolution :
    ((GetRequest "abc123" "/webhook/mail/send" "").Headers.lookup "Authorization" =
        some "Bearer abc123" ∧
      (GetRequest "abc123" "/webhook/mail/send" "").BaseURL =
        "https://webhook.cocoonmail.com/webhook/mail/send") ∧
    ∀ key endpoint host : String,
      (GetRequest key endpoint host).BaseURL =
        (if host = "" then "https://webhook.cocoonmail.com" else host) ++ endpoint := by
  refine ⟨⟨rfl, rfl⟩, fun key endpoint host => ?_⟩
  simp only [GetRequest, createCocoonmailRequest, requestNew]
  split <;> simp_all

/-- C7 (confirmed): for a recognized region and a descriptor whose baseURL
parses, `SetDataResidency` succeeds and the new baseURL is the region's host
followed by the extracted path; the path is empty or starts with `/` while
the host never ends in `/`, so no double slash is introduced. In particular
region `eu` on `https://webhook.cocoonmail.com/webhook/mail/send` yields
`https://api.eu.cocoonmail.com/webhook/mail/send`. -/
theorem set_data_residency_rewrites_path (req : Request) (region H p : String)
    (hH : allowedRegionsHostMap region = some H)
    (hp : extractEndpoint req.BaseURL = some p) :
    (SetDataResidency req region).1.BaseURL = H ++ p ∧
    (SetDataResidency req region).2 = none ∧
    (p = "" ∨ p.data.head? = some '/') ∧
    H.data.getLast? ≠ some '/' ∧
    (SetDataResidency sampleRequest "eu").1.BaseURL =
      "https://api.eu.cocoonmail.com/webhook/mail/send" := by
  have hS : SetDataResidency req region = ({ req with BaseURL := H ++ p }, none) := by
    unfold SetDataResidency
    rw [hH, hp]
  refine ⟨by rw [hS], by rw [hS], ?_, ?_, by rfl⟩
  · unfold extractEndpoint at hp
    cases hcore : extractURLPathCore req.BaseURL.data with
    | none => rw [hcore] at hp; exact absurd hp (by simp)
    | some pd =>
        rw [hcore, Option.map_some', Option.some.injEq] at hp
        obtain ⟨-, hshape⟩ := extract_path_props _ _ hcore
        rcases hshape with h0 | ⟨t, ht⟩
        · left
          rw [← hp, h0]
        · right
          rw [← hp, ht]
          rfl
  · unfold allowedRegionsHostMap at hH
    split_ifs at hH with hr1 hr2
    · obtain rfl : "https://api.eu.cocoonmail.com" = H := Option.some.inj hH
      decide
    · obtain rfl : "https://webhook.cocoonmail.com" = H := Option.some.inj hH
      decide

/-- C7 witness: the concrete rewrite from the spec's example. -/
theorem set_data_residency_rewrites_path_witness :
    (SetDataResidency sampleRequest "eu").1.BaseURL =
      "https://api.eu.cocoonmail.com" ++ "/webhook/mail/send" :=
  (set_data_residency_rewrites_path sampleRequest "eu" "https://api.eu.cocoonmail.com"
    "/webhook/mail/send" (by rfl) (by rfl)).1

/-- C8 (confirmed): for every descriptor and every recognized region,
applying `SetDataResidency` twice with the same region returns exactly what a
single application returns — re-extracting the path from an already
rewritten baseURL yields the same path. -/
theorem set_data_residency_idempotent (req : Request) (region : String)
    (h : region = "eu" ∨ region = "global") :
    SetDataResidency (SetDataResidency req region).1 region =
      SetDataResidency req region := by
  obtain ⟨H, hmap, hHset⟩ : ∃ H, allowedRegionsHostMap region = some H ∧
      (H = "https://api.eu.cocoonmail.com" ∨ H = "https://webhook.cocoonmail.com") := by
    rcases h with h | h <;> subst h
    · exact ⟨_, rfl, Or.inl rfl⟩
    · exact ⟨_, rfl, Or.inr rfl⟩
  cases hext : extractEndpoint req.BaseURL with
  | none =>
      have h1 : SetDataResidency req region = (req, some urlParseErrorMsg) := by
        unfold SetDataResidency
        rw [hmap, hext]
      rw [h1]
      exact h1
  | some p =>
      have h1 : SetDataResidency req region = ({ req with BaseURL := H ++ p }, none) := by
        unfold SetDataResidency
        rw [hmap, hext]
      have hext2 : extractEndpoint (H ++ p) = some p :=
        extractEndpoint_roundtrip H req.BaseURL p hHset hext
      rw [h1]
      show SetDataResidency { req with BaseURL := H ++ p } region =
        ({ req with BaseURL := H ++ p }, none)
      have hb : ({ req with BaseURL := H ++ p } : Request).BaseURL = H ++ p := rfl
      unfold SetDataResidency
      rw [hmap, hb, hext2]

/-- C8 witness: idempotence at a concrete descriptor and region `eu`. -/
theorem set_data_residency_idempotent_witness :
    SetDataResidency (SetDataResidency sampleRequest "eu").1 "eu" =
      SetDataResidency sampleRequest "eu" :=
  set_data_residency_idempotent sampleRequest "eu" (Or.inl rfl)

/-- C9 (confirmed): `NewMailSendRequest` returns a request whose recipient
list, attachment list, remote-attachment list and custom-parameter mapping
are all present and empty (`some []`), never the nil container `none`. -/
theorem new_mail_send_request_nonnull_empty :
    NewMailSendRequest.To = some [] ∧
    NewMailSendRequest.Attachments = some [] ∧
    NewMailSendRequest.AttachmentsRemote = some [] ∧
    NewMailSendRequest.CustomParameter = some [] :=
  ⟨rfl, rfl, rfl, rfl⟩

/-- C10 (confirmed): `SetDataResidency` never changes Method, Headers or
Body, and whenever it returns an error it returns the entire descriptor
(BaseURL included) unchanged. -/
theorem set_data_residency_frame (req : Request) (region : String) :
    (SetDataResidency req region).1.Method = req.Method ∧
    (SetDataResidency req region).1.Headers = req.Headers ∧
    (SetDataResidency req region).1.Body = req.Body ∧
    ((SetDataResidency req region).2 ≠ none → (SetDataResidency req region).1 = req) := by
  unfold SetDataResidency
  cases allowedRegionsHostMap region with
  | none => exact ⟨rfl, rfl, rfl, fun _ => rfl⟩
  | some H =>
      cases extractEndpoint req.BaseURL with
      | none => exact ⟨rfl, rfl, rfl, fun _ => rfl⟩
      | some p => exact ⟨rfl, rfl, rfl, fun hc => absurd rfl hc⟩

/-- C10 witness: on a failing call the descriptor comes back unchanged. -/
theorem set_data_residency_frame_witness :
    (SetDataResidency sampleRequest "us").1 = sampleRequest :=
  (set_data_residency_frame sampleRequest "us").2.2.2 (by decide)

end Cocoonmail
